import Mathlib

/-!
Verification of `appengine/upload.py` (go-lepton repository).

The script computes a pseudo-version string from the state of a git
checkout and drives an App Engine deployment with it.  We shallowly embed
the script: every external-process interaction (`subprocess.check_output`
for git queries, `subprocess.call` for the deploy tool) is threaded
through an explicit environment `Env` and an explicit trace of issued
calls, so that temporal claims ("this query is never issued") become
statements about the trace.  Python string operations used by the script
(`rstrip`, `splitlines`, slicing, `%`-formatting) are given faithful
Lean counterparts for the inputs the script feeds them.
-/

namespace Upload

/-- Python 2 `str` whitespace set used by `rstrip()`. -/
def isPySpace (c : Char) : Bool :=
  c = ' ' || c = '\t' || c = '\n' || c = '\r' || c = '\x0b' || c = '\x0c'

/-- Python `s.rstrip()`: drop trailing whitespace characters. -/
def pyRstrip (s : String) : String :=
  ⟨(s.data.reverse.dropWhile isPySpace).reverse⟩

/-- Line-break characters recognized by Python 2 `str.splitlines`
(`\n`, `\r`, and the pair `\r\n` counted as a single break). -/
def isLineBreak (c : Char) : Bool := c = '\n' || c = '\r'

/-- Worker for `splitlines`, accumulating the current line (reversed). -/
def splitlinesList : List Char → List Char → List (List Char)
  | [], acc => if acc.isEmpty then [] else [acc.reverse]
  | '\r' :: '\n' :: rest, acc => acc.reverse :: splitlinesList rest []
  | c :: rest, acc =>
    if isLineBreak c then acc.reverse :: splitlinesList rest []
    else splitlinesList rest (c :: acc)

/-- Python 2 `s.splitlines()`. -/
def pySplitlines (s : String) : List String :=
  (splitlinesList s.data []).map fun l => ⟨l⟩

/-- Python `repr` of a string, as used when a list is `%s`-formatted.
(Escaping of quotes inside the string is not reproduced; the script only
ever formats opaque command-line arguments this way.) -/
def pyStrRepr (s : String) : String := "'" ++ s ++ "'"

/-- Python `'%s' % args` for a list of strings: `['a', 'b']`. -/
def pyListRepr (args : List String) : String :=
  "[" ++ String.intercalate ", " (args.map pyStrRepr) ++ "]"

/-- String prefix test on the underlying character lists. -/
def strStartsWith (s p : String) : Bool := p.data.isPrefixOf s.data

/-- String suffix test on the underlying character lists. -/
def strEndsWith (s p : String) : Bool := p.data.reverse.isPrefixOf s.data.reverse

/-- Python `os.path.join(a, b)` for POSIX paths. -/
def pyPathJoin (a b : String) : String :=
  if strStartsWith b "/" then b
  else if a = "" then b
  else if strEndsWith a "/" then a ++ b
  else a ++ "/" ++ b

/-- The data `subprocess.CalledProcessError` carries when
`subprocess.check_output` sees a non-zero exit: the return code, the full
argument vector that was run, and the captured output.  (It does not
record the working directory the process ran in.) -/
structure CalledProcessError where
  returncode : Int
  cmd : List String
  output : String
deriving DecidableEq

/-- Ways the script terminates abnormally: `optparse`'s `parser.error`
(usage message, exit status 2) or an uncaught `CalledProcessError` from a
git query. -/
inductive Err where
  | usage (msg : String)
  | vcs (e : CalledProcessError)
deriving DecidableEq

/-- One external-process invocation made by the script: a git query run
via `subprocess.check_output` in a working directory, or a deploy-tool
invocation run via `subprocess.call`. -/
inductive ExtCall where
  | git (argv : List String) (cwd : String)
  | proc (argv : List String)
deriving DecidableEq

/-- Whether a recorded call is a git query (as opposed to a deploy step). -/
def ExtCall.isGitCall : ExtCall → Bool
  | .git _ _ => true
  | .proc _ => false

/-- Whether a recorded call is a `git diff` query. -/
def ExtCall.isDiffQuery : ExtCall → Bool
  | .git argv _ =>
    match argv with
    | _ :: c :: _ => c = "diff"
    | _ => false
  | .proc _ => false

/-- The script's effect monad: state-passing over the trace of issued
external calls, with abnormal termination in `Err`.  On an error the
trace accumulated so far is kept, so "command never executed" claims
remain statements about the final trace. -/
def M (α : Type) : Type := List ExtCall → Except Err α × List ExtCall

/-- Return without external effects. -/
def pureM {α : Type} (a : α) : M α := fun s => (Except.ok a, s)

/-- Sequencing: run `x`; on success feed its value to `f`, on abnormal
termination stop (no handler anywhere in the script). -/
def bindM {α β : Type} (x : M α) (f : α → M β) : M β := fun s =>
  match x s with
  | (Except.ok a, s1) => f a s1
  | (Except.error e, s1) => (Except.error e, s1)

/-- Abnormal termination. -/
def throwM {α : Type} (e : Err) : M α := fun s => (Except.error e, s)

/-- The external world the script runs against: `run` is the behavior of
`subprocess.check_output` (output on success, return code and captured
output on non-zero exit), `user` is `getpass.getuser()`, and `call` is
the exit status `subprocess.call` returns for a deploy command. -/
structure Env where
  run : List String → String → Except (Int × String) String
  user : String
  call : List String → Int

/-- `def git(cmd, cwd): return subprocess.check_output(['git'] + cmd, cwd=cwd)`.
The invocation is recorded in the trace; a non-zero exit surfaces as the
`CalledProcessError` that `check_output` raises, which propagates —
uncaught — to the top level. -/
def git (env : Env) (cmd : List String) (cwd : String) : M String := fun s =>
  match env.run ("git" :: cmd) cwd with
  | Except.ok out => (Except.ok out, s ++ [ExtCall.git ("git" :: cmd) cwd])
  | Except.error (code, out) =>
    (Except.error (Err.vcs ⟨code, "git" :: cmd, out⟩), s ++ [ExtCall.git ("git" :: cmd) cwd])

/-- `get_pseudo_revision(root, remote)` from the source: resolve the
merge-base of HEAD and `remote`, then count the lines that
`git log <mergebase> --format="%h"` prints. -/
def get_pseudo_revision (env : Env) (root remote : String) : M (Nat × String) :=
  bindM (git env ["merge-base", "HEAD", remote] root) fun out =>
  let mergebase := pyRstrip out
  bindM (git env ["log", mergebase, "--format=\"%h\""] root) fun log_out =>
  pureM ((pySplitlines log_out).length, mergebase)

/-- `is_pristine(root, mergebase)` from the source.  Returns `False` at
once when HEAD differs from `mergebase`.  Otherwise evaluates
`not (git diff --ignore-submodules=none <mb> or git diff --ignore-submodules --cached <mb>)`;
Python's `or` short-circuits, so the cached diff runs only when the
unstaged diff output is empty (falsy). -/
def is_pristine (env : Env) (root mergebase : String) : M Bool :=
  bindM (git env ["rev-parse", "HEAD"] root) fun out =>
  let head := pyRstrip out
  if head ≠ mergebase then pureM false
  else
    bindM (git env ["diff", "--ignore-submodules=none", mergebase] root) fun d1 =>
    if d1 ≠ "" then pureM false
    else
      bindM (git env ["diff", "--ignore-submodules", "--cached", mergebase] root) fun d2 =>
      pureM (decide (d2 = ""))

/-- The formatting performed by lines 54-58 of `calculate_version`, as a
pure function of its inputs (the spec's `format_version` operation):
`'%s-%s' % (pseudo_revision, mergebase[:7])`, then `-tainted-<user>`
when not pristine, then `-<tag>` when the tag is truthy (neither `None`
nor the empty string). -/
def format_version (ordinal : Nat) (mergebase : String) (pristine : Bool)
    (username : String) (tag : Option String) : String :=
  let version := toString ordinal ++ "-" ++ mergebase.take 7
  let version := if pristine then version else version ++ "-tainted-" ++ username
  match tag with
  | some t => if t = "" then version else version ++ "-" ++ t
  | none => version

/-- `calculate_version(root, tag)` from the source: the upstream
reference is the literal `'origin/master'`; `getpass.getuser()` is the
environment's `user`. -/
def calculate_version (env : Env) (root : String) (tag : Option String) : M String :=
  bindM (get_pseudo_revision env root "origin/master") fun pr =>
  bindM (is_pristine env root pr.2) fun pristine =>
  pureM (format_version pr.1 pr.2 pristine env.user tag)

/-- `checkout_root(cwd)` from the source. -/
def checkout_root (env : Env) (cwd : String) : M String :=
  bindM (git env ["rev-parse", "--show-toplevel"] cwd) fun out =>
  pureM (pyRstrip out)

/-- The option values `optparse` hands back to `main`. -/
structure Options where
  verbose : Bool
  tag : Option String

/-- The module-level path constants (`GO_APPENGINE`, `SEE_ALL_DIR`); both
are computed from the process environment at import time, so the
embedding takes them as parameters. -/
structure Config where
  go_appengine : String
  see_all_dir : String

/-- The `appcfg.py update` command line built by `main`. -/
def updateCmd (C : Config) (version : String) : List String :=
  [pyPathJoin C.go_appengine "appcfg.py", "update", C.see_all_dir, "-V", version]

/-- The `appcfg.py set_default_version` command line built by `main`. -/
def setDefaultCmd (C : Config) (version : String) : List String :=
  [pyPathJoin C.go_appengine "appcfg.py", "set_default_version", C.see_all_dir, "-V", version]

/-- `subprocess.call(cmd)`: records the invocation and yields the deploy
tool's exit status (it does not raise on non-zero). -/
def pcall (env : Env) (cmd : List String) : M Int := fun s =>
  (Except.ok (env.call cmd), s ++ [ExtCall.proc cmd])

/-- Lines 78-80 of `main`: `root = checkout_root(os.getcwd())` followed
by `version = calculate_version(root, options.tag)`. -/
def versionPhase (env : Env) (cwd : String) (tag : Option String) : M String :=
  bindM (checkout_root env cwd) fun root =>
  calculate_version env root tag

/-- `main()` from the source, after `optparse` has produced
`(options, args)`.  A non-empty `args` hits `parser.error('Unknown
arguments, %s' % args)` before any git query.  Logging configuration and
the `print version` statement are stdout/stderr effects with no bearing
on the claims and are not modelled.  `if ret: return ret` skips the
second deploy step exactly when the first returned non-zero. -/
def main (C : Config) (env : Env) (cwd : String) (options : Options)
    (args : List String) : M Int :=
  if args.isEmpty then
    bindM (versionPhase env cwd options.tag) fun version =>
    bindM (pcall env (updateCmd C version)) fun ret =>
    if ret ≠ 0 then pureM ret
    else pcall env (setDefaultCmd C version)
  else
    throwM (Err.usage ("Unknown arguments, " ++ pyListRepr args))

/-- Process exit status of a finished run: `sys.exit(main())` on normal
return, status 2 for `optparse`'s `parser.error`, status 1 for an
uncaught Python exception (the propagated `CalledProcessError`). -/
def exitStatus : Except Err Int → Int
  | Except.ok n => n
  | Except.error (Err.usage _) => 2
  | Except.error (Err.vcs _) => 1

/-- A computation whose every addition to the call trace is a git query
(it never invokes the deploy collaborator). -/
def GitOnly {α : Type} (p : M α) : Prop :=
  ∀ s r s', p s = (r, s') → ∀ c ∈ s', c ∈ s ∨ c.isGitCall = true

/-- Modelled from the spec: the git binary is an external collaborator
("Version-control query interface", spec §6), so its behavior on a
repository is modelled as data.  `parents` is the commit graph,
`commits` its (finite) set of known commit ids, `head` the id printed by
`rev-parse HEAD`, `mb rem` the merge-base of HEAD and `rem` (none when
the query fails), and `reachL c` the commits whose log lines
`git log c` prints — well-formedness (below) ties it to graph
reachability. -/
structure Repo where
  parents : String → List String
  commits : List String
  head : String
  mb : String → Option String
  reachL : String → List String

/-- `Reaches r c x`: commit `x` is an ancestor of `c` (inclusive),
i.e. reachable from `c` by following parent links. -/
def Reaches (r : Repo) : String → String → Prop :=
  Relation.ReflTransGen fun u v => v ∈ r.parents u

/-- The log output for commit list `ids`: one line per commit. -/
def renderLog (ids : List String) : String :=
  ⟨(ids.map String.data).foldr (fun x acc => x ++ '\n' :: acc) []⟩

/-- Modelled from the spec: well-formedness of a repository model —
merge-base results are known commits, commit ids carry no trailing
whitespace and no line breaks, and `git log c` prints each commit
reachable from `c` exactly once. -/
structure Repo.WF (r : Repo) : Prop where
  mb_mem : ∀ rem m, r.mb rem = some m → m ∈ r.commits
  id_clean : ∀ c, c ∈ r.commits → pyRstrip c = c
  reach_nodup : ∀ c, c ∈ r.commits → (r.reachL c).Nodup
  reach_iff : ∀ c, c ∈ r.commits → ∀ x, x ∈ r.reachL c ↔ Reaches r c x
  reach_clean : ∀ c, c ∈ r.commits → ∀ x, x ∈ r.reachL c →
    ∀ ch, ch ∈ x.data → isLineBreak ch = false

/-- Modelled from the spec: the environment a repository model presents
to the script — answers to the exact git queries the script issues. -/
def Repo.env (r : Repo) (u : String) : Env where
  user := u
  call := fun _ => 0
  run := fun argv _cwd =>
    match argv with
    | ["git", "merge-base", "HEAD", rem] =>
      match r.mb rem with
      | some m => Except.ok (m ++ "\n")
      | none => Except.error (1, "")
    | ["git", "log", c, f] =>
      if f = "--format=\"%h\"" then
        if c ∈ r.commits then Except.ok (renderLog (r.reachL c))
        else Except.error (128, "")
      else Except.error (129, "")
    | ["git", "rev-parse", "HEAD"] => Except.ok (r.head ++ "\n")
    | _ => Except.error (1, "")

/-- A concrete environment for witnesses: a clean checkout sitting at
commit `deadbeef` with empty diffs. -/
def envClean : Env where
  user := "alice"
  call := fun _ => 0
  run := fun argv _cwd =>
    if argv = ["git", "rev-parse", "HEAD"] then Except.ok "deadbeef\n"
    else if argv = ["git", "diff", "--ignore-submodules=none", "deadbeef"] then Except.ok ""
    else if argv = ["git", "diff", "--ignore-submodules", "--cached", "deadbeef"] then
      Except.ok ""
    else Except.error (1, "")

/-- A concrete environment for witnesses: every external command fails
with status 1. -/
def envFail : Env where
  user := "bob"
  call := fun _ => 1
  run := fun _ _ => Except.error (1, "")

/-- A concrete two-commit repository for witnesses: `b` is a child of
`a`; remote `r1` resolves to merge-base `a`, remote `r2` to `b`. -/
def repoA : Repo where
  parents := fun c => if c = "b" then ["a"] else []
  commits := ["a", "b"]
  head := "b"
  mb := fun rem => if rem = "r1" then some "a" else if rem = "r2" then some "b" else none
  reachL := fun c => if c = "a" then ["a"] else if c = "b" then ["b", "a"] else []

/-- A concrete environment for witnesses of the deploy-phase claim:
git queries behave as `repoA` with a pristine checkout at `b`, the
update step fails with status 3. -/
def envDeploy : Env where
  user := "carol"
  call := fun argv => if argv.contains "update" then 3 else 0
  run := fun argv _cwd =>
    if argv = ["git", "rev-parse", "--show-toplevel"] then Except.ok "/repo\n"
    else if argv = ["git", "merge-base", "HEAD", "origin/master"] then Except.ok "b\n"
    else if argv = ["git", "log", "b", "--format=\"%h\""] then Except.ok "b\na\n"
    else if argv = ["git", "rev-parse", "HEAD"] then Except.ok "b\n"
    else if argv = ["git", "diff", "--ignore-submodules=none", "b"] then Except.ok ""
    else if argv = ["git", "diff", "--ignore-submodules", "--cached", "b"] then Except.ok ""
    else Except.error (1, "")

/-- A concrete configuration for witnesses. -/
def cfgA : Config := ⟨"/ga", "seeall"⟩

/-- Concrete parsed options for witnesses: no flags. -/
def optsA : Options := ⟨false, none⟩

/-- The git-query trace the version phase produces under `envDeploy`. -/
def traceA : List ExtCall :=
  [ExtCall.git ["git", "rev-parse", "--show-toplevel"] "/cwd",
   ExtCall.git ["git", "merge-base", "HEAD", "origin/master"] "/repo",
   ExtCall.git ["git", "log", "b", "--format=\"%h\""] "/repo",
   ExtCall.git ["git", "rev-parse", "HEAD"] "/repo",
   ExtCall.git ["git", "diff", "--ignore-submodules=none", "b"] "/repo",
   ExtCall.git ["git", "diff", "--ignore-submodules", "--cached", "b"] "/repo"]

/-- Whether a subprocess argument vector is a `git merge-base HEAD <ref>`
query (for some upstream reference). -/
def isMergeBaseQuery (argv : List String) : Bool :=
  match argv with
  | ["git", "merge-base", "HEAD", _] => true
  | _ => false

/-- A computation that only ever appends to the trace it is given
(never rewrites or drops recorded calls). -/
def ExtendsTrace {α : Type} (p : M α) : Prop :=
  ∀ s, ∃ t, (p s).2 = s ++ t

/-! Helper lemmas. -/

/-- Appending a final newline does not change `rstrip`. -/
theorem pyRstrip_append_newline (s : String) : pyRstrip (s ++ "\n") = pyRstrip s := by
  unfold pyRstrip
  congr 1
  have : (s ++ "\n").data = s.data ++ ['\n'] := by
    simp [String.data_append]
  rw [this]
  simp [List.dropWhile, isPySpace]

/-- `splitlines` peels off one break-free line ended by a newline. -/
theorem splitlinesList_line (rest : List Char) :
    ∀ (x acc : List Char), (∀ c ∈ x, isLineBreak c = false) →
      splitlinesList (x ++ '\n' :: rest) acc = (acc.reverse ++ x) :: splitlinesList rest [] := by
  intro x
  induction x with
  | nil =>
    intro acc _
    rw [List.nil_append]
    rw [splitlinesList.eq_3 acc '\n' rest (fun _ e _ => by simp at e)]
    simp [isLineBreak]
  | cons c x ih =>
    intro acc h
    have hc : isLineBreak c = false := h c (by simp)
    have hcr : c ≠ '\r' := by
      intro e; rw [e] at hc; simp [isLineBreak] at hc
    rw [List.cons_append]
    rw [splitlinesList.eq_3 acc c (x ++ '\n' :: rest) (fun _ e _ => hcr e)]
    rw [hc]
    rw [ih (c :: acc) (fun d hd => h d (List.mem_cons_of_mem _ hd))]
    simp

/-- `splitlines` of a rendering of break-free lines recovers the lines. -/
theorem splitlinesList_joinLines (ls : List (List Char))
    (h : ∀ l ∈ ls, ∀ c ∈ l, isLineBreak c = false) :
    splitlinesList (ls.foldr (fun x acc => x ++ '\n' :: acc) []) [] = ls := by
  induction ls with
  | nil => simp [splitlinesList]
  | cons l ls ih =>
    simp only [List.foldr_cons]
    rw [splitlinesList_line _ l [] (h l (by simp))]
    rw [ih (fun l2 hl2 => h l2 (by simp [hl2]))]
    simp

/-- `splitlines` of the rendered log of break-free commit ids gives the
ids back. -/
theorem pySplitlines_renderLog (ids : List String)
    (h : ∀ x ∈ ids, ∀ ch ∈ x.data, isLineBreak ch = false) :
    pySplitlines (renderLog ids) = ids := by
  have hmk : ∀ s : String, String.mk s.data = s := fun s => by cases s; rfl
  unfold pySplitlines renderLog
  rw [show (String.mk ((ids.map String.data).foldr (fun x acc => x ++ '\n' :: acc) [])).data
      = (ids.map String.data).foldr (fun x acc => x ++ '\n' :: acc) [] from rfl]
  rw [splitlinesList_joinLines]
  · rw [List.map_map]
    rw [show ((fun l => (⟨l⟩ : String)) ∘ String.data) = id from funext hmk, List.map_id]
  · intro l hl c hc
    obtain ⟨x, hx, rfl⟩ := List.mem_map.mp hl
    exact h x hx c hc

/-- Running `get_pseudo_revision` against a well-formed repository model:
it resolves the merge-base, counts the log lines, and issues exactly the
merge-base query followed by the log query. -/
theorem get_pseudo_revision_repoEnv (r : Repo) (u root rem m : String) (hwf : r.WF)
    (hm : r.mb rem = some m) (s : List ExtCall) :
    get_pseudo_revision (r.env u) root rem s =
      (Except.ok ((r.reachL m).length, m),
       s ++ [ExtCall.git ["git", "merge-base", "HEAD", rem] root,
             ExtCall.git ["git", "log", m, "--format=\"%h\""] root]) := by
  have hmem := hwf.mb_mem rem m hm
  have hclean := hwf.id_clean m hmem
  have hcount := pySplitlines_renderLog (r.reachL m) (hwf.reach_clean m hmem)
  unfold get_pseudo_revision git bindM pureM
  simp only [Repo.env, hm, pyRstrip_append_newline, hclean, hmem, if_pos, if_true, hcount]
  simp [List.append_assoc]

/-- `pureM` adds nothing to the trace. -/
theorem gitOnly_pureM {α : Type} (a : α) : GitOnly (pureM a) := by
  intro s r s' h c hc
  unfold pureM at h
  injection h with h1 h2
  subst h2
  exact Or.inl hc

/-- `throwM` adds nothing to the trace. -/
theorem gitOnly_throwM {α : Type} (e : Err) : GitOnly (throwM e : M α) := by
  intro s r s' h c hc
  unfold throwM at h
  injection h with h1 h2
  subst h2
  exact Or.inl hc

/-- The `git` wrapper adds exactly one git query to the trace. -/
theorem gitOnly_git (env : Env) (cmd : List String) (cwd : String) :
    GitOnly (git env cmd cwd) := by
  intro s r s' h c hc
  unfold git at h
  have hs' : s' = s ++ [ExtCall.git ("git" :: cmd) cwd] := by
    cases henv : env.run ("git" :: cmd) cwd with
    | ok out =>
      rw [henv] at h
      injection h with h1 h2
      exact h2.symm
    | error e =>
      obtain ⟨code, out⟩ := e
      rw [henv] at h
      injection h with h1 h2
      exact h2.symm
  subst hs'
  rcases List.mem_append.mp hc with h1 | h2
  · exact Or.inl h1
  · right
    simp at h2
    rw [h2]
    rfl

/-- `GitOnly` is preserved by sequencing. -/
theorem gitOnly_bindM {α β : Type} {x : M α} {f : α → M β} (hx : GitOnly x)
    (hf : ∀ a, GitOnly (f a)) : GitOnly (bindM x f) := by
  intro s r s' h c hc
  unfold bindM at h
  rcases hx1 : x s with ⟨res, s1⟩
  rw [hx1] at h
  cases res with
  | ok a =>
    rcases hf a s1 r s' h c hc with hc1 | hc2
    · exact hx s (Except.ok a) s1 hx1 c hc1
    · exact Or.inr hc2
  | error e =>
    injection h with h1 h2
    subst h2
    exact hx s (Except.error e) s1 hx1 c hc

/-- `GitOnly` is preserved by branching. -/
theorem gitOnly_ite {α : Type} (cond : Prop) [Decidable cond] (p q : M α)
    (hp : GitOnly p) (hq : GitOnly q) : GitOnly (if cond then p else q) := by
  split
  · exact hp
  · exact hq

/-- `get_pseudo_revision` issues only git queries. -/
theorem gitOnly_get_pseudo_revision (env : Env) (root remote : String) :
    GitOnly (get_pseudo_revision env root remote) :=
  gitOnly_bindM (gitOnly_git _ _ _) fun _ =>
    gitOnly_bindM (gitOnly_git _ _ _) fun _ => gitOnly_pureM _

/-- `is_pristine` issues only git queries. -/
theorem gitOnly_is_pristine (env : Env) (root mergebase : String) :
    GitOnly (is_pristine env root mergebase) :=
  gitOnly_bindM (gitOnly_git _ _ _) fun _ =>
    gitOnly_ite _ _ _ (gitOnly_pureM _)
      (gitOnly_bindM (gitOnly_git _ _ _) fun _ =>
        gitOnly_ite _ _ _ (gitOnly_pureM _)
          (gitOnly_bindM (gitOnly_git _ _ _) fun _ => gitOnly_pureM _))

/-- `calculate_version` issues only git queries. -/
theorem gitOnly_calculate_version (env : Env) (root : String) (tag : Option String) :
    GitOnly (calculate_version env root tag) :=
  gitOnly_bindM (gitOnly_get_pseudo_revision _ _ _) fun _ =>
    gitOnly_bindM (gitOnly_is_pristine _ _ _) fun _ => gitOnly_pureM _

/-- `checkout_root` issues only git queries. -/
theorem gitOnly_checkout_root (env : Env) (cwd : String) :
    GitOnly (checkout_root env cwd) :=
  gitOnly_bindM (gitOnly_git _ _ _) fun _ => gitOnly_pureM _

/-- The whole version-computation phase issues only git queries. -/
theorem gitOnly_versionPhase (env : Env) (cwd : String) (tag : Option String) :
    GitOnly (versionPhase env cwd tag) :=
  gitOnly_bindM (gitOnly_checkout_root _ _) fun _ => gitOnly_calculate_version _ _ _

/-- C1: `is_pristine(root, mergebase)` returns true iff the current HEAD
(the rstripped `rev-parse HEAD` output) equals the merge-base, the
unstaged diff computed with `--ignore-submodules=none` is empty, and the
cached diff computed with `--ignore-submodules` is empty. -/
theorem C1_is_pristine_iff (env : Env) (root mb h d1 d2 : String) (s : List ExtCall)
    (hrev : env.run ["git", "rev-parse", "HEAD"] root = Except.ok h)
    (hd1 : env.run ["git", "diff", "--ignore-submodules=none", mb] root = Except.ok d1)
    (hd2 : env.run ["git", "diff", "--ignore-submodules", "--cached", mb] root = Except.ok d2) :
    (is_pristine env root mb s).1 = Except.ok true ↔
      (pyRstrip h = mb ∧ d1 = "" ∧ d2 = "") := by
  by_cases hh : pyRstrip h = mb <;> by_cases h1 : d1 = "" <;> by_cases h2 : d2 = "" <;>
    simp [is_pristine, git, bindM, pureM, hrev, hd1, hd2, hh, h1, h2]

/-- C1 witness: on a clean checkout at `deadbeef` the three queries
succeed and `is_pristine` returns true, matching the characterization. -/
theorem C1_witness :
    (envClean.run ["git", "rev-parse", "HEAD"] "/repo" = Except.ok "deadbeef\n" ∧
     envClean.run ["git", "diff", "--ignore-submodules=none", "deadbeef"] "/repo" = Except.ok "" ∧
     envClean.run ["git", "diff", "--ignore-submodules", "--cached", "deadbeef"] "/repo" =
       Except.ok "") ∧
    ((is_pristine envClean "/repo" "deadbeef" []).1 = Except.ok true ↔
      (pyRstrip "deadbeef\n" = "deadbeef" ∧ "" = "" ∧ "" = "")) :=
  ⟨⟨rfl, rfl, rfl⟩,
   C1_is_pristine_iff envClean "/repo" "deadbeef" "deadbeef\n" "" "" [] rfl rfl rfl⟩

/-- C2: when HEAD differs from the merge-base, `is_pristine` returns
false and the trace holds exactly the `rev-parse HEAD` query — in
particular no `git diff` query is ever issued. -/
theorem C2_short_circuit (env : Env) (root mb h : String)
    (hrev : env.run ["git", "rev-parse", "HEAD"] root = Except.ok h)
    (hne : pyRstrip h ≠ mb) :
    is_pristine env root mb [] =
      (Except.ok false, [ExtCall.git ["git", "rev-parse", "HEAD"] root]) ∧
    ∀ c ∈ (is_pristine env root mb []).2, c.isDiffQuery = false := by
  have hrun : is_pristine env root mb [] =
      (Except.ok false, [ExtCall.git ["git", "rev-parse", "HEAD"] root]) := by
    simp [is_pristine, git, bindM, pureM, hrev, hne]
  refine ⟨hrun, ?_⟩
  rw [hrun]
  intro c hc
  simp at hc
  rw [hc]
  rfl

/-- C2 witness: asking whether the clean checkout at `deadbeef` is
pristine relative to a different commit `0123456` returns false after
the single `rev-parse` query. -/
theorem C2_witness :
    (envClean.run ["git", "rev-parse", "HEAD"] "/repo" = Except.ok "deadbeef\n" ∧
     pyRstrip "deadbeef\n" ≠ "0123456") ∧
    is_pristine envClean "/repo" "0123456" [] =
      (Except.ok false, [ExtCall.git ["git", "rev-parse", "HEAD"] "/repo"]) :=
  ⟨⟨rfl, by decide⟩,
   (C2_short_circuit envClean "/repo" "0123456" "deadbeef\n" rfl (by decide)).1⟩

/-- C3: every computed version string starts with
`"{ordinal}-{mergebase_id[:7]}"`; truncation to 7 characters is a no-op
on shorter identifiers (no padding); concretely
`format_version 42 "abc" pristine "alice" "rc1" = "42-abc-rc1"`. -/
theorem C3_version_base (o : Nat) (id : String) (p : Bool) (u : String) (t : Option String) :
    (∃ rest, format_version o id p u t = (toString o ++ "-" ++ id.take 7) ++ rest) ∧
    (id.length ≤ 7 → id.take 7 = id) ∧
    format_version 42 "abc" true "alice" (some "rc1") = "42-abc-rc1" := by
  refine ⟨?_, ?_, by decide⟩
  · unfold format_version
    cases p with
    | true =>
      cases t with
      | none => exact ⟨"", by simp⟩
      | some t1 =>
        by_cases ht : t1 = ""
        · exact ⟨"", by simp [ht]⟩
        · exact ⟨"-" ++ t1, by simp [ht, String.append_assoc]⟩
    | false =>
      cases t with
      | none => exact ⟨"-tainted-" ++ u, by simp [String.append_assoc]⟩
      | some t1 =>
        by_cases ht : t1 = ""
        · exact ⟨"-tainted-" ++ u, by simp [ht, String.append_assoc]⟩
        · exact ⟨"-tainted-" ++ u ++ "-" ++ t1, by simp [ht, String.append_assoc]⟩
  · intro hlen
    apply String.ext
    rw [String.data_take]
    exact List.take_of_length_le hlen

/-- C3 witness: instantiation at the spec's example. -/
theorem C3_witness :
    ("abc" : String).length ≤ 7 ∧ String.take "abc" 7 = "abc" ∧
    format_version 42 "abc" true "alice" (some "rc1") = "42-abc-rc1" :=
  ⟨by decide, (C3_version_base 42 "abc" true "alice" (some "rc1")).2.1 (by decide),
   (C3_version_base 42 "abc" true "alice" (some "rc1")).2.2⟩

/-- C4: the taint suffix `-tainted-{username}` follows the base directly
and precedes the tag suffix `-{tag}`; a pristine version has no taint
suffix and an absent or empty tag adds no tag suffix; concretely
`format_version 7 "deadbeef" false "bob" "rc2" = "7-deadbee-tainted-bob-rc2"`. -/
theorem C4_suffix_order (o : Nat) (id u t : String) (ht : t ≠ "") :
    format_version o id false u (some t)
      = toString o ++ "-" ++ id.take 7 ++ "-tainted-" ++ u ++ "-" ++ t ∧
    format_version o id true u (some t) = toString o ++ "-" ++ id.take 7 ++ "-" ++ t ∧
    format_version o id false u none = toString o ++ "-" ++ id.take 7 ++ "-tainted-" ++ u ∧
    format_version o id false u (some "") = toString o ++ "-" ++ id.take 7 ++ "-tainted-" ++ u ∧
    format_version o id true u none = toString o ++ "-" ++ id.take 7 ∧
    format_version 7 "deadbeef" false "bob" (some "rc2") = "7-deadbee-tainted-bob-rc2" := by
  refine ⟨?_, ?_, ?_, ?_, ?_, by decide⟩ <;> simp [format_version, ht]

/-- C4 witness: instantiation at the spec's example. -/
theorem C4_witness :
    ("rc2" : String) ≠ "" ∧
    format_version 7 "deadbeef" false "bob" (some "rc2") = "7-deadbee-tainted-bob-rc2" :=
  ⟨by decide, (C4_suffix_order 7 "deadbeef" "bob" "rc2" (by decide)).2.2.2.2.2⟩

/-- C5: when the deploy collaborator's `update` step returns a non-zero
status the script returns exactly that status and never invokes
`set_default_version`; when it returns zero, `set_default_version` is
invoked with the same directory and version and the script returns its
status.  In both cases the trace before the deploy steps holds git
queries only, so the second deploy step appears in the trace exactly
when `update` returned zero. -/
theorem C5_deploy_sequence (C : Config) (env : Env) (cwd : String) (opts : Options)
    (v : String) (l0 : List ExtCall)
    (hv : versionPhase env cwd opts.tag [] = (Except.ok v, l0)) :
    (env.call (updateCmd C v) ≠ 0 →
      main C env cwd opts [] [] = (Except.ok (env.call (updateCmd C v)),
        l0 ++ [ExtCall.proc (updateCmd C v)])) ∧
    (env.call (updateCmd C v) = 0 →
      main C env cwd opts [] [] = (Except.ok (env.call (setDefaultCmd C v)),
        l0 ++ [ExtCall.proc (updateCmd C v), ExtCall.proc (setDefaultCmd C v)])) ∧
    (∀ c ∈ l0, c.isGitCall = true) := by
  refine ⟨?_, ?_, ?_⟩
  · intro hne
    simp [main, bindM, pureM, pcall, hv, hne, List.append_assoc]
  · intro hz
    simp [main, bindM, pureM, pcall, hv, hz, List.append_assoc]
  · intro c hc
    rcases gitOnly_versionPhase env cwd opts.tag [] (Except.ok v) l0 hv c hc with h1 | h2
    · simp at h1
    · exact h2

/-- C5 witness: with `envDeploy` the version phase computes `2-b`, the
update step fails with status 3, and the run returns 3 with no
`set_default_version` invocation in the trace. -/
theorem C5_witness :
    versionPhase envDeploy "/cwd" optsA.tag [] = (Except.ok "2-b", traceA) ∧
    main cfgA envDeploy "/cwd" optsA [] [] =
      (Except.ok 3, traceA ++ [ExtCall.proc (updateCmd cfgA "2-b")]) := by
  have hv : versionPhase envDeploy "/cwd" optsA.tag [] = (Except.ok "2-b", traceA) := by rfl
  have hcall : envDeploy.call (updateCmd cfgA "2-b") = 3 := rfl
  refine ⟨hv, ?_⟩
  have h2 := (C5_deploy_sequence cfgA envDeploy "/cwd" optsA "2-b" traceA hv).1
    (by rw [hcall]; decide)
  rw [h2, hcall]

/-- C6: any positional CLI argument makes the run stop through
`parser.error` with a message beginning `"Unknown arguments, "`, a
non-zero exit status, and an empty trace — no version-control query is
executed. -/
theorem C6_unknown_args (C : Config) (env : Env) (cwd : String) (opts : Options)
    (args : List String) (h : args ≠ []) :
    main C env cwd opts args [] =
      (Except.error (Err.usage ("Unknown arguments, " ++ pyListRepr args)), []) ∧
    exitStatus (Except.error (Err.usage ("Unknown arguments, " ++ pyListRepr args))) ≠ 0 := by
  constructor
  · cases args with
    | nil => exact absurd rfl h
    | cons a args => simp [main, throwM]
  · rw [show exitStatus (Except.error (Err.usage ("Unknown arguments, " ++ pyListRepr args)))
        = 2 from rfl]
    decide

/-- C6 witness: one positional argument `x`. -/
theorem C6_witness :
    (["x"] ≠ ([] : List String)) ∧
    (main cfgA envFail "/cwd" optsA ["x"] [] =
      (Except.error (Err.usage ("Unknown arguments, " ++ pyListRepr ["x"])), []) ∧
     exitStatus (Except.error (Err.usage ("Unknown arguments, " ++ pyListRepr ["x"]))) ≠ 0) :=
  ⟨by decide, C6_unknown_args cfgA envFail "/cwd" optsA ["x"] (by decide)⟩

/-- C7 counterexample: the propagated error does not carry the working
directory — the same failing query issued from two different working
directories produces identical propagated errors, so the error cannot
determine the directory.  (It does carry the failed command.) -/
theorem C7_counterexample :
    (git envFail ["rev-parse", "HEAD"] "/a" []).1 = (git envFail ["rev-parse", "HEAD"] "/b" []).1 ∧
    ("/a" : String) ≠ "/b" ∧
    (git envFail ["rev-parse", "HEAD"] "/a" []).1 =
      Except.error (Err.vcs ⟨1, ["git", "rev-parse", "HEAD"], ""⟩) :=
  ⟨rfl, by decide, rfl⟩

/-- C7 amended: a non-zero exit of a git query surfaces as the
`CalledProcessError` raised by `check_output`, carrying the failed
command (with its return code and output) but not the working
directory; the query is issued exactly once (no retry), and through
`main` the error propagates to the top level, aborting the run. -/
theorem C7_amended_propagation (env : Env) (cmd : List String) (cwd : String)
    (code : Int) (out : String) (s : List ExtCall) (C : Config) (opts : Options)
    (h : env.run ("git" :: cmd) cwd = Except.error (code, out))
    (htop : env.run ["git", "rev-parse", "--show-toplevel"] cwd = Except.error (code, out)) :
    git env cmd cwd s = (Except.error (Err.vcs ⟨code, "git" :: cmd, out⟩),
      s ++ [ExtCall.git ("git" :: cmd) cwd]) ∧
    main C env cwd opts [] [] =
      (Except.error (Err.vcs ⟨code, ["git", "rev-parse", "--show-toplevel"], out⟩),
       [ExtCall.git ["git", "rev-parse", "--show-toplevel"] cwd]) := by
  constructor
  · unfold git
    rw [h]
  · simp [main, versionPhase, checkout_root, bindM, pureM, git, htop]

/-- C7 witness: instantiation at the always-failing environment. -/
theorem C7_witness :
    (envFail.run ["git", "rev-parse", "HEAD"] "/repo" = Except.error (1, "") ∧
     envFail.run ["git", "rev-parse", "--show-toplevel"] "/repo" = Except.error (1, "")) ∧
    git envFail ["rev-parse", "HEAD"] "/repo" [] =
      (Except.error (Err.vcs ⟨1, ["git", "rev-parse", "HEAD"], ""⟩),
       [ExtCall.git ["git", "rev-parse", "HEAD"] "/repo"]) :=
  ⟨⟨rfl, rfl⟩,
   (C7_amended_propagation envFail ["rev-parse", "HEAD"] "/repo" 1 "" [] cfgA optsA
     rfl rfl).1⟩

/-- `repoA` is a well-formed repository model. -/
theorem repoA_wf : repoA.WF := by
  constructor
  · intro rem m h
    simp only [repoA] at h ⊢
    split at h
    · injection h with h1
      simp [h1.symm]
    · split at h
      · injection h with h1
        simp [h1.symm]
      · exact absurd h (by simp)
  · intro c hc
    simp only [repoA, List.mem_cons, List.mem_singleton] at hc
    rcases hc with rfl | hc
    · decide
    · rcases hc with rfl | hc
      · decide
      · simp at hc
  · intro c hc
    simp only [repoA, List.mem_cons, List.mem_singleton] at hc
    rcases hc with rfl | hc
    · decide
    · rcases hc with rfl | hc
      · decide
      · simp at hc
  · intro c hc x
    simp only [repoA, List.mem_cons, List.mem_singleton] at hc
    rcases hc with rfl | hc
    · constructor
      · intro hx
        simp [repoA] at hx
        rw [hx]
        exact Relation.ReflTransGen.refl
      · intro hr
        induction hr with
        | refl => simp [repoA]
        | tail hab hbc ih =>
          rw [show repoA.reachL "a" = ["a"] from rfl] at ih
          simp at ih
          rw [ih] at hbc
          rw [show repoA.parents "a" = [] from rfl] at hbc
          simp at hbc
    · rcases hc with rfl | hc
      · constructor
        · intro hx
          rw [show repoA.reachL "b" = ["b", "a"] from rfl] at hx
          simp at hx
          rcases hx with rfl | rfl
          · exact Relation.ReflTransGen.refl
          · exact Relation.ReflTransGen.single (by decide)
        · intro hr
          induction hr with
          | refl => decide
          | tail hab hbc ih =>
            rw [show repoA.reachL "b" = ["b", "a"] from rfl] at ih ⊢
            simp at ih
            rcases ih with rfl | rfl
            · rw [show repoA.parents "b" = ["a"] from rfl] at hbc
              simp at hbc
              simp [hbc]
            · rw [show repoA.parents "a" = [] from rfl] at hbc
              simp at hbc
      · simp at hc
  · intro c hc x hx ch hch
    simp only [repoA, List.mem_cons, List.mem_singleton] at hc
    rcases hc with rfl | hc
    · rw [show repoA.reachL "a" = ["a"] from rfl] at hx
      simp at hx
      rw [hx] at hch
      simp at hch
      rw [hch]
      decide
    · rcases hc with rfl | hc
      · rw [show repoA.reachL "b" = ["b", "a"] from rfl] at hx
        simp at hx
        rcases hx with rfl | rfl <;> (simp at hch; rw [hch]; decide)
      · simp at hc

/-- C8: when one resolved merge-base is an ancestor of another in the
commit graph, the ordinal `get_pseudo_revision` computes for the
ancestor is at most the one it computes for the descendant (the count of
reachable commits is monotone along ancestry). -/
theorem C8_ordinal_monotone (r : Repo) (u root rem1 rem2 m1 m2 : String) (hwf : r.WF)
    (h1 : r.mb rem1 = some m1) (h2 : r.mb rem2 = some m2)
    (hanc : Reaches r m2 m1) :
    (get_pseudo_revision (r.env u) root rem1 []).1 =
      Except.ok ((r.reachL m1).length, m1) ∧
    (get_pseudo_revision (r.env u) root rem2 []).1 =
      Except.ok ((r.reachL m2).length, m2) ∧
    (r.reachL m1).length ≤ (r.reachL m2).length := by
  have hm1 := hwf.mb_mem _ _ h1
  have hm2 := hwf.mb_mem _ _ h2
  refine ⟨by rw [get_pseudo_revision_repoEnv r u root rem1 m1 hwf h1],
          by rw [get_pseudo_revision_repoEnv r u root rem2 m2 hwf h2], ?_⟩
  have hsub : r.reachL m1 ⊆ r.reachL m2 := by
    intro x hx
    have hr1 : Reaches r m1 x := (hwf.reach_iff m1 hm1 x).mp hx
    exact (hwf.reach_iff m2 hm2 x).mpr (Relation.ReflTransGen.trans hanc hr1)
  exact (List.subperm_of_subset (hwf.reach_nodup m1 hm1) hsub).length_le

/-- C8 witness: in `repoA`, remote `r1` resolves to `a`, remote `r2` to
its descendant `b`; the ordinals are 1 and 2. -/
theorem C8_witness :
    repoA.WF ∧ repoA.mb "r1" = some "a" ∧ repoA.mb "r2" = some "b" ∧
    Reaches repoA "b" "a" ∧
    ((get_pseudo_revision (repoA.env "u") "/r" "r1" []).1 =
       Except.ok ((repoA.reachL "a").length, "a") ∧
     (get_pseudo_revision (repoA.env "u") "/r" "r2" []).1 =
       Except.ok ((repoA.reachL "b").length, "b") ∧
     (repoA.reachL "a").length ≤ (repoA.reachL "b").length) :=
  ⟨repoA_wf, rfl, rfl, Relation.ReflTransGen.single (by decide),
   C8_ordinal_monotone repoA "u" "/r" "r1" "r2" "a" "b" repoA_wf rfl rfl
     (Relation.ReflTransGen.single (by decide))⟩

/-- C9: whenever merge-base resolution succeeds, the computed ordinal is
at least 1, because the log starting from the resolved merge-base always
contains the merge-base commit itself. -/
theorem C9_ordinal_positive (r : Repo) (u root rem m : String) (hwf : r.WF)
    (hm : r.mb rem = some m) :
    (get_pseudo_revision (r.env u) root rem []).1 =
      Except.ok ((r.reachL m).length, m) ∧
    1 ≤ (r.reachL m).length := by
  have hmem := hwf.mb_mem _ _ hm
  refine ⟨by rw [get_pseudo_revision_repoEnv r u root rem m hwf hm], ?_⟩
  have hself : m ∈ r.reachL m := (hwf.reach_iff m hmem m).mpr Relation.ReflTransGen.refl
  exact List.length_pos_of_mem hself

/-- C9 witness: instantiation at `repoA` with remote `r1`. -/
theorem C9_witness :
    repoA.WF ∧ repoA.mb "r1" = some "a" ∧
    ((get_pseudo_revision (repoA.env "u") "/r" "r1" []).1 =
       Except.ok ((repoA.reachL "a").length, "a") ∧
     1 ≤ (repoA.reachL "a").length) :=
  ⟨repoA_wf, rfl, C9_ordinal_positive repoA "u" "/r" "r1" "a" repoA_wf rfl⟩

/-- Runs of two computations that agree pointwise compose to agreeing
runs under `bindM`. -/
theorem bindM_congr {α β : Type} {x1 x2 : M α} {f1 f2 : α → M β}
    (hx : ∀ s, x1 s = x2 s) (hf : ∀ a s, f1 a s = f2 a s) (s : List ExtCall) :
    bindM x1 f1 s = bindM x2 f2 s := by
  unfold bindM
  rw [hx s]
  rcases x2 s with ⟨res, s1⟩
  cases res with
  | ok a => exact hf a s1
  | error e => rfl

/-- Two environments that answer a git query alike give the same `git`
run for it. -/
theorem git_congr {env1 env2 : Env} (cmd : List String) (cwd : String)
    (h : env1.run ("git" :: cmd) cwd = env2.run ("git" :: cmd) cwd) (s : List ExtCall) :
    git env1 cmd cwd s = git env2 cmd cwd s := by
  unfold git
  rw [h]

/-- `is_pristine` depends on the environment only through the
`rev-parse` and the two `diff` queries it issues. -/
theorem is_pristine_congr {env1 env2 : Env} (root mb : String)
    (hrev : env1.run ["git", "rev-parse", "HEAD"] root =
      env2.run ["git", "rev-parse", "HEAD"] root)
    (hd1 : env1.run ["git", "diff", "--ignore-submodules=none", mb] root =
      env2.run ["git", "diff", "--ignore-submodules=none", mb] root)
    (hd2 : env1.run ["git", "diff", "--ignore-submodules", "--cached", mb] root =
      env2.run ["git", "diff", "--ignore-submodules", "--cached", mb] root)
    (s : List ExtCall) :
    is_pristine env1 root mb s = is_pristine env2 root mb s := by
  unfold is_pristine
  apply bindM_congr (git_congr _ _ hrev)
  intro out s1
  by_cases hh : pyRstrip out ≠ mb
  · rw [if_pos hh, if_pos hh]
  · rw [if_neg hh, if_neg hh]
    apply bindM_congr (git_congr _ _ hd1)
    intro d1 s2
    by_cases h1 : d1 ≠ ""
    · rw [if_pos h1, if_pos h1]
    · rw [if_neg h1, if_neg h1]
      exact bindM_congr (git_congr _ _ hd2) (fun _ _ => rfl) s2

/-- `get_pseudo_revision` depends on the environment only through the
merge-base query for its remote and the log queries. -/
theorem get_pseudo_revision_congr {env1 env2 : Env} (root remote : String)
    (hmb : env1.run ["git", "merge-base", "HEAD", remote] root =
      env2.run ["git", "merge-base", "HEAD", remote] root)
    (hlog : ∀ c, env1.run ["git", "log", c, "--format=\"%h\""] root =
      env2.run ["git", "log", c, "--format=\"%h\""] root)
    (s : List ExtCall) :
    get_pseudo_revision env1 root remote s = get_pseudo_revision env2 root remote s := by
  unfold get_pseudo_revision
  apply bindM_congr (git_congr _ _ hmb)
  intro out s1
  exact bindM_congr (git_congr _ _ (hlog (pyRstrip out))) (fun _ _ => rfl) s1

/-- The `git` wrapper appends exactly its own invocation to the trace. -/
theorem git_trace (env : Env) (cmd : List String) (cwd : String) (s : List ExtCall) :
    (git env cmd cwd s).2 = s ++ [ExtCall.git ("git" :: cmd) cwd] := by
  unfold git
  split
  · rfl
  · rfl

/-- `pureM` extends the trace (by nothing). -/
theorem extendsTrace_pureM {α : Type} (a : α) : ExtendsTrace (pureM a) :=
  fun s => ⟨[], by simp [pureM]⟩

/-- `git` extends the trace. -/
theorem extendsTrace_git (env : Env) (cmd : List String) (cwd : String) :
    ExtendsTrace (git env cmd cwd) :=
  fun s => ⟨[ExtCall.git ("git" :: cmd) cwd], git_trace env cmd cwd s⟩

/-- `bindM` of trace-extending computations extends the trace. -/
theorem extendsTrace_bindM {α β : Type} {x : M α} {f : α → M β}
    (hx : ExtendsTrace x) (hf : ∀ a, ExtendsTrace (f a)) : ExtendsTrace (bindM x f) := by
  intro s
  obtain ⟨t1, h1⟩ := hx s
  unfold bindM
  rcases hxs : x s with ⟨res, s1⟩
  rw [hxs] at h1
  cases res with
  | ok a =>
    obtain ⟨t2, h2⟩ := hf a s1
    have h1a : s1 = s ++ t1 := h1
    exact ⟨t1 ++ t2, by rw [h2, h1a, List.append_assoc]⟩
  | error e => exact ⟨t1, h1⟩

/-- Branches of trace-extending computations extend the trace. -/
theorem extendsTrace_ite {α : Type} (cond : Prop) [Decidable cond] (p q : M α)
    (hp : ExtendsTrace p) (hq : ExtendsTrace q) : ExtendsTrace (if cond then p else q) := by
  split
  · exact hp
  · exact hq

/-- `is_pristine` extends the trace. -/
theorem extendsTrace_is_pristine (env : Env) (root mb : String) :
    ExtendsTrace (is_pristine env root mb) :=
  extendsTrace_bindM (extendsTrace_git _ _ _) fun _ =>
    extendsTrace_ite _ _ _ (extendsTrace_pureM _)
      (extendsTrace_bindM (extendsTrace_git _ _ _) fun _ =>
        extendsTrace_ite _ _ _ (extendsTrace_pureM _)
          (extendsTrace_bindM (extendsTrace_git _ _ _) fun _ => extendsTrace_pureM _))

/-- Associativity of the explicit-state sequencing. -/
theorem bindM_assoc {α β γ : Type} (x : M α) (g : α → M β) (f : β → M γ)
    (s : List ExtCall) :
    bindM (bindM x g) f s = bindM x (fun a => bindM (g a) f) s := by
  unfold bindM
  rcases x s with ⟨res, s1⟩
  cases res with
  | ok a => rfl
  | error e => rfl

/-- The trace of a sequence starts with the trace of its head when the
continuation only appends. -/
theorem bindM_trace_head {α β : Type} (x : M α) (f : α → M β)
    (hf : ∀ a, ExtendsTrace (f a)) (s : List ExtCall) :
    ∃ t, (bindM x f s).2 = (x s).2 ++ t := by
  unfold bindM
  rcases hxs : x s with ⟨res, s1⟩
  cases res with
  | ok a =>
    obtain ⟨t, ht⟩ := hf a s1
    exact ⟨t, ht⟩
  | error e => exact ⟨[], by simp⟩

/-- C10: the upstream reference is the fixed constant `origin/master`.
`calculate_version` exposes no parameter for it; two environments that
agree on the user, on the `origin/master` merge-base query, and on every
non-merge-base query (they may answer merge-base queries for every other
upstream reference arbitrarily) give identical runs, and every run's
trace begins with the `merge-base HEAD origin/master` query. -/
theorem C10_fixed_upstream (env1 env2 : Env) (root : String) (tag : Option String)
    (s : List ExtCall)
    (huser : env1.user = env2.user)
    (hmb : ∀ cwd, env1.run ["git", "merge-base", "HEAD", "origin/master"] cwd =
      env2.run ["git", "merge-base", "HEAD", "origin/master"] cwd)
    (hoth : ∀ argv cwd, isMergeBaseQuery argv = false →
      env1.run argv cwd = env2.run argv cwd) :
    calculate_version env1 root tag s = calculate_version env2 root tag s ∧
    ∃ rest, (calculate_version env1 root tag s).2 =
      s ++ ExtCall.git ["git", "merge-base", "HEAD", "origin/master"] root :: rest := by
  constructor
  · unfold calculate_version
    apply bindM_congr
    · exact get_pseudo_revision_congr root "origin/master" (hmb root)
        (fun c => hoth ["git", "log", c, "--format=\"%h\""] root rfl)
    · intro pr s1
      apply bindM_congr
      · exact is_pristine_congr root pr.2
          (hoth ["git", "rev-parse", "HEAD"] root rfl)
          (hoth ["git", "diff", "--ignore-submodules=none", pr.2] root rfl)
          (hoth ["git", "diff", "--ignore-submodules", "--cached", pr.2] root rfl)
      · intro pristine s2
        rw [pureM, pureM, huser]
  · unfold calculate_version get_pseudo_revision
    rw [bindM_assoc]
    have hfext : ∀ a, ExtendsTrace (bindM
        (let mergebase := pyRstrip a
         bindM (git env1 ["log", mergebase, "--format=\"%h\""] root) fun log_out =>
         pureM ((pySplitlines log_out).length, mergebase)) fun pr =>
        bindM (is_pristine env1 root pr.2) fun pristine =>
        pureM (format_version pr.1 pr.2 pristine env1.user tag)) := fun a =>
      extendsTrace_bindM
        (extendsTrace_bindM (extendsTrace_git _ _ _) fun _ => extendsTrace_pureM _)
        (fun pr => extendsTrace_bindM (extendsTrace_is_pristine _ _ _) fun _ =>
          extendsTrace_pureM _)
    obtain ⟨t, ht⟩ := bindM_trace_head
      (git env1 ["merge-base", "HEAD", "origin/master"] root) _ hfext s
    refine ⟨t, ?_⟩
    rw [ht, git_trace, List.append_assoc]
    rfl

/-- C10 witness: instantiation with the deploy environment on both
sides. -/
theorem C10_witness :
    envDeploy.user = envDeploy.user ∧
    (calculate_version envDeploy "/repo" none [] =
       calculate_version envDeploy "/repo" none [] ∧
     ∃ rest, (calculate_version envDeploy "/repo" none []).2 =
       [] ++ ExtCall.git ["git", "merge-base", "HEAD", "origin/master"] "/repo" :: rest) :=
  ⟨rfl, C10_fixed_upstream envDeploy envDeploy "/repo" none [] rfl
    (fun _ => rfl) (fun _ _ _ => rfl)⟩

end Upload
